import Mathlib

/-!
# Verification of the Markdown-to-Reveal.js converter core

A shallow embedding of the canvas/viewport transforms, grid snapping,
connection management, node hit-testing, presentation-flow sorting, flow
classification and engine recommendation logic of the converter, together
with theorems settling the frozen claims about them.

JavaScript numbers are modelled as rationals (`ℚ`), JS `Map`s as
association lists in insertion order, and JS `Set`s as duplicate-free
lists in insertion order.
-/

/-- A 2-D point (JS `{x, y}` object). -/
structure Pt where
  x : ℚ
  y : ℚ
deriving DecidableEq, Repr

/-- A node's size (JS `{width, height}` object). -/
structure NodeSize where
  width : ℚ
  height : ℚ
deriving DecidableEq, Repr

/-- A canvas node.  Only the fields consulted by the verified functions are
modelled (`id`, `type`, `position`, `size`); content and styling fields are
presentational and never read by the logic under verification.  The code
under test defaults missing `position`/`size` (`node.position || {x:0,y:0}`),
so the fields are modelled as always present. -/
structure CNode where
  id : String
  type : String
  position : Pt
  size : NodeSize
deriving DecidableEq, Repr

/-- A directed connection between two nodes (`createConnection` in
`connection-manager.js`).  The `style`/`metadata` fields are presentational
and not modelled. -/
structure Connection where
  id : String
  startNodeId : String
  endNodeId : String
deriving DecidableEq, Repr

/-! ## JS `Map` and `Set` as association lists

`JsMap.setK` mirrors `Map.prototype.set`: it replaces the value of an
existing key in place (keeping insertion order) and appends a new key at
the end.  `JsMap.getK?` mirrors `Map.prototype.get` and `JsMap.hasK`
mirrors `Map.prototype.has`.  `jsInsert` mirrors `Set.prototype.add`. -/

namespace JsMap

/-- `Map.prototype.set`: replace in place or append. -/
def setK {α : Type} : List (String × α) → String → α → List (String × α)
  | [], k, v => [(k, v)]
  | (k', v') :: rest, k, v =>
      if k' = k then (k, v) :: rest else (k', v') :: setK rest k v

/-- `Map.prototype.get` (returning `none` for `undefined`). -/
def getK? {α : Type} : List (String × α) → String → Option α
  | [], _ => none
  | (k', v) :: rest, k => if k' = k then some v else getK? rest k

/-- `Map.prototype.has`. -/
def hasK {α : Type} (m : List (String × α)) (k : String) : Bool :=
  (getK? m k).isSome

end JsMap

/-- `Set.prototype.add`: append if absent (JS sets preserve insertion
order and ignore re-insertions). -/
def jsInsert (s : List String) (x : String) : List String :=
  if x ∈ s then s else s ++ [x]

/-! ## Canvas manager (`CanvasManager`, src/unnamed/part_007)

Viewport state and the coordinate transforms, zoom and grid snapping. -/

/-- The `CanvasManager` viewport state. -/
structure Viewport where
  x : ℚ
  y : ℚ
  scale : ℚ
  width : ℚ
  height : ℚ
deriving DecidableEq, Repr

/-- `CanvasManager.minZoom` (10%). -/
def minZoom : ℚ := 1 / 10

/-- `CanvasManager.maxZoom` (1000%). -/
def maxZoom : ℚ := 10

/-- `CanvasManager.screenToWorld`. -/
def screenToWorld (vp : Viewport) (screenX screenY : ℚ) : Pt :=
  { x := (screenX - vp.x) / vp.scale
    y := (screenY - vp.y) / vp.scale }

/-- `CanvasManager.worldToScreen`. -/
def worldToScreen (vp : Viewport) (worldX worldY : ℚ) : Pt :=
  { x := worldX * vp.scale + vp.x
    y := worldY * vp.scale + vp.y }

/-- `CanvasManager.clampZoom`. -/
def clampZoom (scale : ℚ) : ℚ :=
  max minZoom (min maxZoom scale)

/-- `CanvasManager.setZoom` (the instant, non-animated path; the animated
path converges to the same final viewport).  `focusPoint?.x || width / 2`
is JS: a *falsy* coordinate (i.e. `0`) falls back to the canvas centre. -/
def setZoom (vp : Viewport) (scale : ℚ) (focusPoint : Option Pt) : Viewport :=
  let targetScale := clampZoom scale
  let centerX := match focusPoint with
    | some p => if p.x = 0 then vp.width / 2 else p.x
    | none => vp.width / 2
  let centerY := match focusPoint with
    | some p => if p.y = 0 then vp.height / 2 else p.y
    | none => vp.height / 2
  let worldCenter := screenToWorld vp centerX centerY
  { vp with
      scale := targetScale
      x := centerX - worldCenter.x * targetScale
      y := centerY - worldCenter.y * targetScale }

/-- `CanvasManager.snapToGrid`.  `gridSize` is the manager's `this.gridSize`
field (default 20); snapping uses a threshold of 30% of the grid size and
`Math.round` (which on rationals agrees with Mathlib's `round`, rounding
halves up). -/
def snapToGrid (gridSize : ℚ) (x y : ℚ) (snapEnabled : Bool) : Pt :=
  if ¬snapEnabled then
    { x := x, y := y }
  else
    let threshold := gridSize * (3 / 10)
    let gridX := (round (x / gridSize) : ℚ) * gridSize
    let gridY := (round (y / gridSize) : ℚ) * gridSize
    let snapX := if |x - gridX| < threshold then gridX else x
    let snapY := if |y - gridY| < threshold then gridY else y
    { x := snapX, y := snapY }

/-! ## Claims C4, C5, C8: coordinate transforms, zoom focus, grid snap -/

/-- **C4.** For every screen point `(sx, sy)` and every viewport with nonzero
scale, `worldToScreen (screenToWorld (sx, sy))` equals `(sx, sy)` exactly in
rational arithmetic (the transform round-trip). -/
theorem c4_transform_roundtrip (vp : Viewport) (sx sy : ℚ) (h : vp.scale ≠ 0) :
    worldToScreen vp (screenToWorld vp sx sy).x (screenToWorld vp sx sy).y = ⟨sx, sy⟩ := by
  simp only [worldToScreen, screenToWorld, Pt.mk.injEq]
  constructor <;> field_simp

theorem c4_transform_roundtrip_witness :
    (⟨3, 4, 2, 800, 600⟩ : Viewport).scale ≠ 0 ∧
      worldToScreen ⟨3, 4, 2, 800, 600⟩ (screenToWorld ⟨3, 4, 2, 800, 600⟩ 10 20).x
        (screenToWorld ⟨3, 4, 2, 800, 600⟩ 10 20).y = ⟨10, 20⟩ :=
  ⟨by norm_num, c4_transform_roundtrip ⟨3, 4, 2, 800, 600⟩ 10 20 (by norm_num)⟩

/-- **C5, counterexample.** At the focus point `(0, 0)` the zoom-to-cursor
invariant fails: the JS fallback `focusPoint?.x || width / 2` treats the
coordinate `0` as falsy and anchors the zoom at the canvas centre instead,
so the world point under the supplied focus point moves. -/
theorem c5_counterexample :
    screenToWorld (setZoom ⟨0, 0, 1, 100, 100⟩ 2 (some ⟨0, 0⟩)) 0 0 ≠
      screenToWorld ⟨0, 0, 1, 100, 100⟩ 0 0 := by
  simp [setZoom, screenToWorld, clampZoom, minZoom, maxZoom, Pt.mk.injEq]
  norm_num

/-- **C5, amended.** For every `setZoom` request that supplies a focus point
both of whose screen coordinates are nonzero (so that the JS falsy-fallback
`focusPoint?.x || width / 2` does not replace them), the world coordinate
under the focus point is exactly the same before and after the zoom. -/
theorem c5_zoom_focus_fixed (vp : Viewport) (scale fx fy : ℚ)
    (hx : fx ≠ 0) (hy : fy ≠ 0) :
    screenToWorld (setZoom vp scale (some ⟨fx, fy⟩)) fx fy = screenToWorld vp fx fy := by
  have hpos : 0 < clampZoom scale := by
    have h1 : (1 : ℚ) / 10 ≤ clampZoom scale := le_max_left _ _
    linarith
  have hne : clampZoom scale ≠ 0 := ne_of_gt hpos
  simp [setZoom, screenToWorld, hx, hy, Pt.mk.injEq]
  constructor <;> exact mul_div_cancel_right₀ _ hne

theorem c5_zoom_focus_fixed_witness :
    (50 : ℚ) ≠ 0 ∧ (40 : ℚ) ≠ 0 ∧
      screenToWorld (setZoom ⟨7, 8, 1, 100, 100⟩ 2 (some ⟨50, 40⟩)) 50 40 =
        screenToWorld ⟨7, 8, 1, 100, 100⟩ 50 40 :=
  ⟨by norm_num, by norm_num,
    c5_zoom_focus_fixed ⟨7, 8, 1, 100, 100⟩ 2 50 40 (by norm_num) (by norm_num)⟩

/-- **C8.** With snapping disabled `snapToGrid` returns the input unchanged.
With snapping enabled, each coordinate is compared against
`round (x / gridSize) * gridSize`, which is a nearest multiple of the grid
size; the coordinate snaps to that multiple exactly when its distance to it
is (strictly) within 30% of the grid size and is returned unchanged
otherwise — in particular a coordinate exactly half a grid size away from
the nearest multiples stays unchanged. -/
theorem c8_snap_to_grid (g x y : ℚ) (hg : 0 < g) :
    snapToGrid g x y false = ⟨x, y⟩
    ∧ (∀ k : ℤ, |x - (round (x / g) : ℚ) * g| ≤ |x - (k : ℚ) * g|)
    ∧ (|x - (round (x / g) : ℚ) * g| < g * (3 / 10) →
        (snapToGrid g x y true).x = (round (x / g) : ℚ) * g)
    ∧ (g * (3 / 10) ≤ |x - (round (x / g) : ℚ) * g| → (snapToGrid g x y true).x = x)
    ∧ (|x - (round (x / g) : ℚ) * g| = g / 2 → (snapToGrid g x y true).x = x)
    ∧ (∀ k : ℤ, |y - (round (y / g) : ℚ) * g| ≤ |y - (k : ℚ) * g|)
    ∧ (|y - (round (y / g) : ℚ) * g| < g * (3 / 10) →
        (snapToGrid g x y true).y = (round (y / g) : ℚ) * g)
    ∧ (g * (3 / 10) ≤ |y - (round (y / g) : ℚ) * g| → (snapToGrid g x y true).y = y)
    ∧ (|y - (round (y / g) : ℚ) * g| = g / 2 → (snapToGrid g x y true).y = y) := by
  have hgne : g ≠ 0 := ne_of_gt hg
  have nearest : ∀ z : ℚ, ∀ k : ℤ,
      |z - (round (z / g) : ℚ) * g| ≤ |z - (k : ℚ) * g| := by
    intro z k
    have h1 : (z / g - (round (z / g) : ℚ)) * g = z - (round (z / g) : ℚ) * g := by
      rw [sub_mul, div_mul_cancel₀ _ hgne]
    have h2 : (z / g - (k : ℚ)) * g = z - (k : ℚ) * g := by
      rw [sub_mul, div_mul_cancel₀ _ hgne]
    rw [← h1, ← h2, abs_mul, abs_mul]
    exact mul_le_mul_of_nonneg_right (round_le (z / g) k) (abs_nonneg g)
  refine ⟨by simp [snapToGrid], nearest x, fun h => ?_, fun h => ?_, fun h => ?_,
    nearest y, fun h => ?_, fun h => ?_, fun h => ?_⟩
  · simp [snapToGrid, if_pos h]
  · simp [snapToGrid, if_neg (not_lt.mpr h)]
  · have hth : g * (3 / 10) ≤ g / 2 := by linarith
    simp [snapToGrid, if_neg (not_lt.mpr (h ▸ hth))]
  · simp [snapToGrid, if_pos h]
  · simp [snapToGrid, if_neg (not_lt.mpr h)]
  · have hth : g * (3 / 10) ≤ g / 2 := by linarith
    simp [snapToGrid, if_neg (not_lt.mpr (h ▸ hth))]

theorem c8_snap_to_grid_witness :
    (0 : ℚ) < 20 ∧ snapToGrid 20 25 30 false = ⟨25, 30⟩ :=
  ⟨by norm_num, (c8_snap_to_grid 20 25 30 (by norm_num)).1⟩

/-! ## Connection manager (`ConnectionManager`, src/js/core/connection-manager.js)

The connection store is a JS `Map<id, Connection>`; it is modelled by its
value list in insertion order (ids are unique, so `Map.delete` coincides
with removing every entry carrying that id). -/

/-- User-visible outcome of `completeConnection`: a connection was created
(`onConnectionCreate` + created-feedback), the duplicate-feedback path was
taken (`showConnectionExistsFeedback`), or nothing happened (no start node
or a self-loop attempt). -/
inductive ConnectFeedback where
  | created
  | duplicateExists
  | noop
deriving DecidableEq, Repr

/-- `ConnectionManager.findConnection`: looks A→B and B→A up as the same
undirected "existing connection". -/
def findConnection (conns : List Connection) (startNodeId endNodeId : String) :
    Option Connection :=
  conns.find? fun c =>
    (c.startNodeId == startNodeId && c.endNodeId == endNodeId) ||
    (c.startNodeId == endNodeId && c.endNodeId == startNodeId)

/-- `ConnectionManager.createConnection`; the generated
`connection-${Date.now()}-${random}` id is passed in as `freshId`. -/
def createConnection (startNode endNode : CNode) (freshId : String) : Connection :=
  { id := freshId
    startNodeId := startNode.id
    endNodeId := endNode.id }

/-- `ConnectionManager.completeConnection` acting on the connection store:
given the pending `connectionStart` node and the clicked `endNode`, returns
the new store plus the feedback path taken.  (`cancelConnection` afterwards
only resets gesture state.) -/
def completeConnection (connectionStart : Option CNode) (endNode : CNode)
    (freshId : String) (conns : List Connection) :
    List Connection × ConnectFeedback :=
  match connectionStart with
  | none => (conns, .noop)
  | some startNode =>
      if startNode.id ≠ endNode.id then
        match findConnection conns startNode.id endNode.id with
        | none =>
            let connection := createConnection startNode endNode freshId
            (conns ++ [connection], .created)
        | some _ => (conns, .duplicateExists)
      else (conns, .noop)

/-- `ConnectionManager.deleteConnection`: delete by id if present, reporting
whether anything was removed. -/
def deleteConnection (conns : List Connection) (connectionId : String) :
    List Connection × Bool :=
  if conns.any (fun c => c.id == connectionId) then
    (conns.filter (fun c => !(c.id == connectionId)), true)
  else (conns, false)

/-- `ConnectionManager.getConnectionsForNode`. -/
def getConnectionsForNode (conns : List Connection) (nodeId : String) :
    List Connection :=
  conns.filter fun conn =>
    conn.startNodeId == nodeId || conn.endNodeId == nodeId

/-- `StateManager.removeNode` (node-store part: `Map.delete` on the id). -/
def removeNode (nodes : List CNode) (nodeId : String) : List CNode :=
  nodes.filter fun n => !(n.id == nodeId)

/-- `App.handleNodeDelete`: cascade-delete every connection referencing the
node, then remove the node from the store. -/
def handleNodeDelete (nodes : List CNode) (conns : List Connection)
    (nodeId : String) : List CNode × List Connection :=
  let nodeConnections := getConnectionsForNode conns nodeId
  let conns := nodeConnections.foldl
    (fun cs connection => (deleteConnection cs connection.id).1) conns
  (removeNode nodes nodeId, conns)

/-- `ConnectionManager.findNodeAtPosition`: scans the node store in
insertion (creation) order and returns the first node whose bounding
rectangle contains the point. -/
def findNodeAtPosition (nodes : List CNode) (x y : ℚ) : Option CNode :=
  nodes.find? fun node =>
    decide (node.position.x ≤ x) && decide (x ≤ node.position.x + node.size.width) &&
    decide (node.position.y ≤ y) && decide (y ≤ node.position.y + node.size.height)

/-- `NodeManager.isPointInNode` (src/unnamed/part_006). -/
def isPointInNode (x y : ℚ) (node : CNode) : Bool :=
  decide (node.position.x ≤ x) && decide (x ≤ node.position.x + node.size.width) &&
  decide (node.position.y ≤ y) && decide (y ≤ node.position.y + node.size.height)

/-- `NodeManager.getNodeAtPosition`: checks nodes in *reverse* store order
(top of the paint stack first). -/
def getNodeAtPosition (nodes : List CNode) (x y : ℚ) : Option CNode :=
  nodes.reverse.find? (isPointInNode x y)

/-! ## Claims C6, C7, C10: cascade delete, duplicate suppression, hit-tests -/

theorem deleteConnection_fst (conns : List Connection) (connectionId : String) :
    (deleteConnection conns connectionId).1 =
      conns.filter (fun c => !(c.id == connectionId)) := by
  unfold deleteConnection
  by_cases h : conns.any (fun c => c.id == connectionId) = true
  · simp [h]
  · rw [if_neg h]
    simp only [List.any_eq_true, not_exists, not_and] at h
    refine (List.filter_eq_self.mpr fun c hc => ?_).symm
    simpa using h c hc

theorem mem_of_mem_foldl_delete (l : List Connection) :
    ∀ (init : List Connection) (c : Connection),
      c ∈ l.foldl (fun cs d => (deleteConnection cs d.id).1) init → c ∈ init := by
  induction l with
  | nil => intro init c h; exact h
  | cons d t ih =>
      intro init c h
      simp only [List.foldl_cons] at h
      have h' := ih _ _ h
      rw [deleteConnection_fst] at h'
      exact (List.mem_filter.mp h').1

theorem not_mem_foldl_delete (l : List Connection) :
    ∀ (init : List Connection) (c : Connection), c ∈ l →
      c ∉ l.foldl (fun cs d => (deleteConnection cs d.id).1) init := by
  induction l with
  | nil => intro init c hc; cases hc
  | cons d t ih =>
      intro init c hc hmem
      simp only [List.foldl_cons] at hmem
      rcases List.mem_cons.mp hc with rfl | hct
      · have h1 : c ∈ (deleteConnection init c.id).1 :=
          mem_of_mem_foldl_delete t _ c hmem
        rw [deleteConnection_fst] at h1
        simp at h1
      · exact ih _ c hct hmem

/-- **C6.** After `handleNodeDelete`, no connection left in the connection
store references the deleted node: the cascade first deletes (by id) every
connection whose `startNodeId` or `endNodeId` is the deleted node, so every
remaining connection references neither endpoint equal to `deletedId`. -/
theorem c6_cascade_delete (nodes : List CNode) (conns : List Connection)
    (nodeId : String) (c : Connection)
    (hmem : c ∈ (handleNodeDelete nodes conns nodeId).2) :
    c.startNodeId ≠ nodeId ∧ c.endNodeId ≠ nodeId := by
  unfold handleNodeDelete at hmem
  simp only at hmem
  have key : c ∉ getConnectionsForNode conns nodeId := by
    intro hin
    exact not_mem_foldl_delete _ conns c hin hmem
  constructor
  · intro h
    exact key (List.mem_filter.mpr ⟨mem_of_mem_foldl_delete _ _ _ hmem, by simp [h]⟩)
  · intro h
    exact key (List.mem_filter.mpr ⟨mem_of_mem_foldl_delete _ _ _ hmem, by simp [h]⟩)

theorem c6_cascade_delete_witness :
    (⟨"c2", "x", "y"⟩ : Connection) ∈
        (handleNodeDelete [] [⟨"c1", "a", "b"⟩, ⟨"c2", "x", "y"⟩] "a").2 ∧
      (⟨"c2", "x", "y"⟩ : Connection).startNodeId ≠ "a" ∧
      (⟨"c2", "x", "y"⟩ : Connection).endNodeId ≠ "a" :=
  ⟨by decide,
    c6_cascade_delete [] [⟨"c1", "a", "b"⟩, ⟨"c2", "x", "y"⟩] "a" ⟨"c2", "x", "y"⟩
      (by decide)⟩

/-- **C7.** If a connection from `A` to `B` is already in the store, then
completing a connect gesture from `B` to `A` — or from `A` to `B` again —
creates no second edge: the store is returned unchanged and the
duplicate-feedback path (`showConnectionExistsFeedback`) is taken, because
`findConnection` treats A→B and B→A as the same existing connection. -/
theorem c7_duplicate_suppression (conns : List Connection) (A B : CNode)
    (freshId : String) (c : Connection) (hc : c ∈ conns)
    (hs : c.startNodeId = A.id) (he : c.endNodeId = B.id) (hne : A.id ≠ B.id) :
    completeConnection (some B) A freshId conns = (conns, .duplicateExists) ∧
      completeConnection (some A) B freshId conns = (conns, .duplicateExists) := by
  have h1 : (findConnection conns B.id A.id).isSome := by
    unfold findConnection
    rw [List.find?_isSome]
    exact ⟨c, hc, by simp [hs, he]⟩
  have h2 : (findConnection conns A.id B.id).isSome := by
    unfold findConnection
    rw [List.find?_isSome]
    exact ⟨c, hc, by simp [hs, he]⟩
  obtain ⟨d1, hd1⟩ := Option.isSome_iff_exists.mp h1
  obtain ⟨d2, hd2⟩ := Option.isSome_iff_exists.mp h2
  have hne' : B.id ≠ A.id := fun h => hne h.symm
  constructor
  · simp [completeConnection, hne', hd1]
  · simp [completeConnection, hne, hd2]

theorem c7_duplicate_suppression_witness :
    (⟨"c1", "a", "b"⟩ : Connection) ∈ [(⟨"c1", "a", "b"⟩ : Connection)] ∧
      ("a" : String) ≠ "b" ∧
      completeConnection (some ⟨"b", "text", ⟨0, 0⟩, ⟨200, 150⟩⟩)
          ⟨"a", "text", ⟨0, 0⟩, ⟨200, 150⟩⟩ "fresh" [⟨"c1", "a", "b"⟩] =
        ([⟨"c1", "a", "b"⟩], .duplicateExists) ∧
      completeConnection (some ⟨"a", "text", ⟨0, 0⟩, ⟨200, 150⟩⟩)
          ⟨"b", "text", ⟨0, 0⟩, ⟨200, 150⟩⟩ "fresh" [⟨"c1", "a", "b"⟩] =
        ([⟨"c1", "a", "b"⟩], .duplicateExists) := by
  have h := c7_duplicate_suppression [⟨"c1", "a", "b"⟩]
    ⟨"a", "text", ⟨0, 0⟩, ⟨200, 150⟩⟩ ⟨"b", "text", ⟨0, 0⟩, ⟨200, 150⟩⟩
    "fresh" ⟨"c1", "a", "b"⟩ (by decide) rfl rfl (by decide)
  exact ⟨by decide, by decide, h.1, h.2⟩

/-- **C10 (implicit).** The connect-gesture hit-test
(`ConnectionManager.findNodeAtPosition`) scans the node store in
store-iteration (creation) order and returns the first node whose bounding
rectangle contains the point, whereas the node-store hit-test
(`NodeManager.getNodeAtPosition`) reverses the list first so the
most-recently-created containing node wins: with earlier-created `a` and
later-created `b` both containing the point (and no other containing node
before `a` or after `b`), the former returns `a` and the latter returns
`b`. -/
theorem c10_hit_test_order (l1 l2 l3 : List CNode) (a b : CNode) (x y : ℚ)
    (pa : isPointInNode x y a = true) (pb : isPointInNode x y b = true)
    (h1 : ∀ n ∈ l1, isPointInNode x y n = false)
    (h3 : ∀ n ∈ l3, isPointInNode x y n = false) :
    findNodeAtPosition (l1 ++ a :: (l2 ++ b :: l3)) x y = some a ∧
      getNodeAtPosition (l1 ++ a :: (l2 ++ b :: l3)) x y = some b := by
  have hfind : ∀ (nodes : List CNode),
      findNodeAtPosition nodes x y = nodes.find? (isPointInNode x y) := fun _ => rfl
  constructor
  · rw [hfind, List.find?_append,
      List.find?_eq_none.mpr (fun n hn => by simp [h1 n hn]),
      List.find?_cons_of_pos _ pa]
    rfl
  · unfold getNodeAtPosition
    rw [show (l1 ++ a :: (l2 ++ b :: l3)).reverse =
        l3.reverse ++ b :: (l2.reverse ++ a :: l1.reverse) by
      simp [List.reverse_append, List.reverse_cons, List.append_assoc],
      List.find?_append,
      List.find?_eq_none.mpr (fun n hn => by
        simp [h3 n (List.mem_reverse.mp hn)]),
      List.find?_cons_of_pos _ pb]
    rfl

theorem c10_hit_test_order_witness :
    isPointInNode 10 10 ⟨"first", "text", ⟨0, 0⟩, ⟨200, 150⟩⟩ = true ∧
      isPointInNode 10 10 ⟨"second", "text", ⟨5, 5⟩, ⟨200, 150⟩⟩ = true ∧
      findNodeAtPosition [⟨"first", "text", ⟨0, 0⟩, ⟨200, 150⟩⟩,
          ⟨"second", "text", ⟨5, 5⟩, ⟨200, 150⟩⟩] 10 10 =
        some ⟨"first", "text", ⟨0, 0⟩, ⟨200, 150⟩⟩ ∧
      getNodeAtPosition [⟨"first", "text", ⟨0, 0⟩, ⟨200, 150⟩⟩,
          ⟨"second", "text", ⟨5, 5⟩, ⟨200, 150⟩⟩] 10 10 =
        some ⟨"second", "text", ⟨5, 5⟩, ⟨200, 150⟩⟩ := by
  have h := c10_hit_test_order [] []
    [] ⟨"first", "text", ⟨0, 0⟩, ⟨200, 150⟩⟩ ⟨"second", "text", ⟨5, 5⟩, ⟨200, 150⟩⟩
    10 10 (by norm_num [isPointInNode]) (by norm_num [isPointInNode])
    (by intro n hn; cases hn) (by intro n hn; cases hn)
  exact ⟨by norm_num [isPointInNode], by norm_num [isPointInNode], h.1, h.2⟩

/-! ## Base presentation engine (`BaseEngine`, src/js/engines/base-engine.js)

Connection-aware presentation ordering (`sortByConnectionFlow`), flow
classification (`analyzeConnectionFlow`) and cycle detection
(`detectSimpleLoops`). -/

/-- The comparator `(a, b) => posA.x - posB.x || posA.y - posB.y` used to
sort root nodes by position (ascending x, then ascending y; JS sort is
stable). -/
def rootLE (p q : CNode) : Bool :=
  decide (p.position.x < q.position.x) ||
  (decide (p.position.x = q.position.x) && decide (p.position.y ≤ q.position.y))

/-- Stable insertion, modelling JS `Array.prototype.sort` (stable per the
ECMAScript spec) with comparator `rootLE`. -/
def insertRoot (n : CNode) : List CNode → List CNode
  | [] => [n]
  | m :: rest => if rootLE n m then n :: m :: rest else m :: insertRoot n rest

/-- Stable sort of the root nodes by position. -/
def sortRootsJs : List CNode → List CNode
  | [] => []
  | n :: rest => insertRoot n (sortRootsJs rest)

/-- The inner recursive `dfs` of `BaseEngine.sortByConnectionFlow`,
threading the `visited` set and `result` list.  The `fuel` argument bounds
the recursion depth, which in the source is bounded by the number of nodes
(each nested call visits a previously unvisited node); callers pass
`nodes.length + 1`, which the recursion never exhausts. -/
def dfsVisit (nodeMap : List (String × CNode))
    (adjacency : List (String × List String)) :
    Nat → List String × List CNode → String → List String × List CNode
  | 0, st, _ => st
  | fuel + 1, (visited, result), nodeId =>
      if nodeId ∈ visited then (visited, result)
      else
        match JsMap.getK? nodeMap nodeId with
        | none => (visited, result)
        | some node =>
            let visited := jsInsert visited nodeId
            let result := result ++ [node]
            ((JsMap.getK? adjacency nodeId).getD []).foldl
              (fun st next => dfsVisit nodeMap adjacency fuel st next)
              (visited, result)

/-- The `nodeMap` local of `sortByConnectionFlow`
(`new Map(nodes.map(node => [node.id, node]))`). -/
def buildNodeMap (nodes : List CNode) : List (String × CNode) :=
  nodes.foldl (fun m node => JsMap.setK m node.id node) []

/-- The `adjacency` local of `sortByConnectionFlow`: every node id maps to
its list of outgoing neighbour ids, in connection order. -/
def buildAdjacency (nodes : List CNode) (connections : List Connection) :
    List (String × List String) :=
  connections.foldl (fun m conn =>
    if JsMap.hasK m conn.startNodeId then
      JsMap.setK m conn.startNodeId
        ((JsMap.getK? m conn.startNodeId).getD [] ++ [conn.endNodeId])
    else m)
    (nodes.foldl (fun m node => JsMap.setK m node.id ([] : List String)) [])

/-- The `incomingCount` local of `sortByConnectionFlow`: every node id maps
to its in-degree. -/
def buildIncomingCount (nodes : List CNode) (connections : List Connection) :
    List (String × Nat) :=
  connections.foldl (fun m conn =>
    if JsMap.hasK m conn.endNodeId then
      JsMap.setK m conn.endNodeId ((JsMap.getK? m conn.endNodeId).getD 0 + 1)
    else m)
    (nodes.foldl (fun m node => JsMap.setK m node.id (0 : Nat)) [])

/-- The `rootNodes` local of `sortByConnectionFlow`: the nodes whose cached
in-degree is 0. -/
def rootNodesOf (nodes : List CNode) (connections : List Connection) :
    List CNode :=
  nodes.filter fun node =>
    JsMap.getK? (buildIncomingCount nodes connections) node.id == some 0

/-- `BaseEngine.sortByConnectionFlow`: DFS from the in-degree-0 roots in
position-sorted order, then append every unvisited node in store order. -/
def sortByConnectionFlow (nodes : List CNode) (connections : List Connection) :
    List CNode :=
  let st := (sortRootsJs (rootNodesOf nodes connections)).foldl
    (fun st node => dfsVisit (buildNodeMap nodes)
      (buildAdjacency nodes connections) (nodes.length + 1) st node.id)
    ([], [])
  nodes.foldl (fun result node =>
    if node.id ∈ st.1 then result else result ++ [node]) st.2

/-- The recursive `hasCycle` of `BaseEngine.detectSimpleLoops` (DFS with a
recursion stack; a back-edge into the recursion stack signals a cycle).
Returns the verdict and the updated `visited` set; the recursion stack is
restored on return exactly as in the source (where a `true` verdict
short-circuits every enclosing loop).  `fuel` bounds the recursion depth,
which the source bounds by the number of distinct adjacency keys. -/
def hasCycle (adjacency : List (String × List String)) :
    Nat → List String → List String → String → Bool × List String
  | 0, _, visited, _ => (false, visited)
  | fuel + 1, recursionStack, visited, node =>
      if node ∈ recursionStack then (true, visited)
      else if node ∈ visited then (false, visited)
      else
        let visited := jsInsert visited node
        let recursionStack := jsInsert recursionStack node
        ((JsMap.getK? adjacency node).getD []).foldl
          (fun st neighbor =>
            if st.1 then st
            else hasCycle adjacency fuel recursionStack st.2 neighbor)
          (false, visited)

/-- `BaseEngine.detectSimpleLoops`: builds the adjacency list from the
connections alone and runs `hasCycle` from every adjacency key, threading
the `visited` set and stopping at the first cycle. -/
def detectSimpleLoops (connections : List Connection) : Bool :=
  let adjacency := connections.foldl (fun m conn =>
    let m := if JsMap.hasK m conn.startNodeId then m
      else JsMap.setK m conn.startNodeId ([] : List String)
    JsMap.setK m conn.startNodeId
      ((JsMap.getK? m conn.startNodeId).getD [] ++ [conn.endNodeId])) []
  ((adjacency.map Prod.fst).foldl
    (fun st startNode =>
      if st.1 then st
      else hasCycle adjacency (connections.length + 2) [] st.2 startNode)
    (false, [])).1

/-- The `outgoingCount` local of `analyzeConnectionFlow`: maps each id that
starts at least one connection to its out-degree. -/
def buildOutgoingCount (connections : List Connection) : List (String × Nat) :=
  connections.foldl (fun m conn =>
    JsMap.setK m conn.startNodeId
      ((JsMap.getK? m conn.startNodeId).getD 0 + 1)) []

/-- Result of `BaseEngine.analyzeConnectionFlow`.  The zero-connection
branch returns an object without `density`/`stats` fields, modelled with
`Option`. -/
structure FlowAnalysis where
  style : String
  complexity : String
  branching : Bool
  loops : Bool
  density : Option ℚ
  statsNodes : Option ℕ
  statsConnections : Option ℕ
  avgConnections : Option ℚ
deriving DecidableEq, Repr

/-- `BaseEngine.analyzeConnectionFlow`. -/
def analyzeConnectionFlow (nodes : List CNode) (connections : List Connection) :
    FlowAnalysis :=
  if connections.length = 0 then
    { style := "spatial", complexity := "simple", branching := false
      loops := false, density := none, statsNodes := none
      statsConnections := none, avgConnections := none }
  else
    let nodeCount := nodes.length
    let connectionCount := connections.length
    let density : ℚ := (connectionCount : ℚ) / max ((nodeCount : ℚ) - 1) 1
    let hasBranching := ((buildOutgoingCount connections).map Prod.snd).any
      fun count => decide (1 < count)
    let hasLoops := detectSimpleLoops connections
    let styleBranching := if decide (density > 1 / 2) || hasBranching
      then "branching" else "linear"
    let style := if hasLoops || decide (density > 1) then "network"
      else styleBranching
    { style := style
      complexity := if density > 7 / 10 then "complex"
        else if density > 3 / 10 then "moderate" else "simple"
      branching := hasBranching
      loops := hasLoops
      density := some density
      statsNodes := some nodeCount
      statsConnections := some connectionCount
      avgConnections := some ((connectionCount : ℚ) / max (nodeCount : ℚ) 1) }

/-! ## Claims C2, C3: presentation ordering -/

/-- **C2.** For every three nodes `A`, `B`, `C` (with distinct ids) and the
two connections A→B and B→C, `sortByConnectionFlow` returns `[A, B, C]` no
matter in which of the six possible store-insertion orders the nodes appear
in the input list. -/
theorem c2_chain_order (A B C : CNode) (i1 i2 : String) (nodes : List CNode)
    (hab : A.id ≠ B.id) (hac : A.id ≠ C.id) (hbc : B.id ≠ C.id)
    (horder : nodes = [A, B, C] ∨ nodes = [A, C, B] ∨ nodes = [B, A, C] ∨
      nodes = [B, C, A] ∨ nodes = [C, A, B] ∨ nodes = [C, B, A]) :
    sortByConnectionFlow nodes [⟨i1, A.id, B.id⟩, ⟨i2, B.id, C.id⟩] = [A, B, C] := by
  rcases horder with rfl | rfl | rfl | rfl | rfl | rfl <;>
    simp [sortByConnectionFlow, rootNodesOf, buildIncomingCount, buildAdjacency,
      buildNodeMap, JsMap.setK, JsMap.getK?, JsMap.hasK, jsInsert,
      dfsVisit, sortRootsJs, insertRoot, rootLE, hab, hac, hbc,
      Ne.symm hab, Ne.symm hac, Ne.symm hbc]

theorem c2_chain_order_witness :
    ("a" : String) ≠ "b" ∧ ("a" : String) ≠ "c" ∧ ("b" : String) ≠ "c" ∧
      sortByConnectionFlow
          [⟨"b", "text", ⟨300, 0⟩, ⟨200, 150⟩⟩, ⟨"c", "text", ⟨600, 0⟩, ⟨200, 150⟩⟩,
            ⟨"a", "text", ⟨0, 0⟩, ⟨200, 150⟩⟩]
          [⟨"1", "a", "b"⟩, ⟨"2", "b", "c"⟩] =
        [⟨"a", "text", ⟨0, 0⟩, ⟨200, 150⟩⟩, ⟨"b", "text", ⟨300, 0⟩, ⟨200, 150⟩⟩,
          ⟨"c", "text", ⟨600, 0⟩, ⟨200, 150⟩⟩] :=
  ⟨by decide, by decide, by decide,
    c2_chain_order ⟨"a", "text", ⟨0, 0⟩, ⟨200, 150⟩⟩
      ⟨"b", "text", ⟨300, 0⟩, ⟨200, 150⟩⟩ ⟨"c", "text", ⟨600, 0⟩, ⟨200, 150⟩⟩
      "1" "2" _ (by decide) (by decide) (by decide)
      (Or.inr (Or.inr (Or.inr (Or.inl rfl))))⟩

/-- In-degree of a node id: the number of connections ending at it. -/
def inDegree (connections : List Connection) (nodeId : String) : Nat :=
  (connections.filter fun c => c.endNodeId == nodeId).length

/-- Out-degree of a node id: the number of connections starting at it. -/
def outDegree (connections : List Connection) (nodeId : String) : Nat :=
  (connections.filter fun c => c.startNodeId == nodeId).length

namespace JsMap

theorem getK?_setK {α : Type} (m : List (String × α)) (k k' : String) (v : α) :
    getK? (setK m k v) k' = if k = k' then some v else getK? m k' := by
  induction m with
  | nil => simp [setK, getK?]
  | cons p rest ih =>
      obtain ⟨pk, pv⟩ := p
      by_cases hpk : pk = k
      · subst hpk
        by_cases hk : pk = k'
        · subst hk
          simp [setK, getK?]
        · simp [setK, getK?, hk]
      · by_cases hk : pk = k'
        · subst hk
          simp [setK, getK?, hpk, fun h : pk = k => hpk h, Ne.symm hpk]
        · simp [setK, getK?, hpk, hk, ih]

theorem hasK_eq (m : List (String × Nat)) (k : String) :
    hasK m k = (getK? m k).isSome := rfl

end JsMap

theorem getK?_foldl_init_zero (nodes : List CNode) :
    ∀ (m : List (String × Nat)) (id : String),
      JsMap.getK? (nodes.foldl (fun m node => JsMap.setK m node.id 0) m) id =
        if id ∈ nodes.map (·.id) then some 0 else JsMap.getK? m id := by
  induction nodes with
  | nil => intro m id; simp
  | cons n t ih =>
      intro m id
      simp only [List.foldl_cons, List.map_cons, List.mem_cons]
      rw [ih]
      by_cases ht : id ∈ t.map (·.id)
      · simp [ht]
      · by_cases hn : n.id = id
        · simp [hn, ht, JsMap.getK?_setK]
        · have hn' : id ≠ n.id := fun h => hn h.symm
          simp [ht, hn', JsMap.getK?_setK, hn]

theorem getK?_incoming_foldl (connections : List Connection) :
    ∀ (m : List (String × Nat)) (id : String),
      JsMap.getK? (connections.foldl (fun m conn =>
          if JsMap.hasK m conn.endNodeId then
            JsMap.setK m conn.endNodeId
              ((JsMap.getK? m conn.endNodeId).getD 0 + 1)
          else m) m) id =
        (JsMap.getK? m id).map (· + inDegree connections id) := by
  induction connections with
  | nil =>
      intro m id
      simp [inDegree]
  | cons c rest ih =>
      intro m id
      simp only [List.foldl_cons]
      rw [ih]
      by_cases hend : c.endNodeId = id
      · subst hend
        have hdeg : inDegree (c :: rest) c.endNodeId =
            inDegree rest c.endNodeId + 1 := by
          simp [inDegree]
        rw [hdeg]
        by_cases hh : JsMap.hasK m c.endNodeId
        · obtain ⟨v, hv⟩ := Option.isSome_iff_exists.mp (JsMap.hasK_eq m _ ▸ hh)
          simp only [hh, if_true, JsMap.getK?_setK, if_pos rfl, hv,
            Option.getD_some, Option.map_some']
          have : v + 1 + inDegree rest c.endNodeId =
              v + (inDegree rest c.endNodeId + 1) := by omega
          rw [this]
        · have hnone : JsMap.getK? m c.endNodeId = none := by
            rw [JsMap.hasK_eq] at hh
            exact Option.not_isSome_iff_eq_none.mp hh
          simp [hh, hnone]
      · have hdeg : inDegree (c :: rest) id = inDegree rest id := by
          simp [inDegree, hend]
        rw [hdeg]
        by_cases hh : JsMap.hasK m c.endNodeId
        · simp [hh, JsMap.getK?_setK, hend]
        · simp [hh]

theorem getK?_buildIncomingCount (nodes : List CNode)
    (connections : List Connection) (n : CNode) (hn : n ∈ nodes) :
    JsMap.getK? (buildIncomingCount nodes connections) n.id =
      some (inDegree connections n.id) := by
  unfold buildIncomingCount
  rw [getK?_incoming_foldl, getK?_foldl_init_zero,
    if_pos (List.mem_map.mpr ⟨n, hn, rfl⟩)]
  simp

theorem foldl_append_nodes (nodes : List CNode) :
    ∀ r : List CNode, nodes.foldl (fun result node => result ++ [node]) r =
      r ++ nodes := by
  induction nodes with
  | nil => intro r; simp
  | cons n t ih => intro r; simp [ih]

/-- **C3.** If every node has in-degree at least 1 (a connection cycle with
no root, e.g. A→B→A), the root set is empty, the DFS visits nothing, and
`sortByConnectionFlow` returns all nodes unchanged, in original
store-iteration order. -/
theorem c3_cycle_fallback_order (nodes : List CNode)
    (connections : List Connection)
    (hdeg : ∀ n ∈ nodes, 1 ≤ inDegree connections n.id) :
    rootNodesOf nodes connections = [] ∧
      sortByConnectionFlow nodes connections = nodes := by
  have hroot : rootNodesOf nodes connections = [] := by
    unfold rootNodesOf
    rw [List.filter_eq_nil_iff]
    intro n hn
    rw [getK?_buildIncomingCount nodes connections n hn]
    have := hdeg n hn
    simp only [beq_iff_eq, Option.some.injEq]
    omega
  refine ⟨hroot, ?_⟩
  unfold sortByConnectionFlow
  rw [hroot]
  simp only [sortRootsJs, List.foldl_nil, List.not_mem_nil, if_false]
  exact foldl_append_nodes nodes []

theorem c3_cycle_fallback_order_witness :
    (∀ n ∈ [(⟨"a", "text", ⟨0, 0⟩, ⟨200, 150⟩⟩ : CNode),
        ⟨"b", "text", ⟨300, 0⟩, ⟨200, 150⟩⟩],
      1 ≤ inDegree [⟨"1", "a", "b"⟩, ⟨"2", "b", "a"⟩] n.id) ∧
      sortByConnectionFlow
          [⟨"a", "text", ⟨0, 0⟩, ⟨200, 150⟩⟩, ⟨"b", "text", ⟨300, 0⟩, ⟨200, 150⟩⟩]
          [⟨"1", "a", "b"⟩, ⟨"2", "b", "a"⟩] =
        [⟨"a", "text", ⟨0, 0⟩, ⟨200, 150⟩⟩, ⟨"b", "text", ⟨300, 0⟩, ⟨200, 150⟩⟩] :=
  ⟨by decide,
    (c3_cycle_fallback_order
      [⟨"a", "text", ⟨0, 0⟩, ⟨200, 150⟩⟩, ⟨"b", "text", ⟨300, 0⟩, ⟨200, 150⟩⟩]
      [⟨"1", "a", "b"⟩, ⟨"2", "b", "a"⟩] (by decide)).2⟩

/-! ## Claim C9: flow classification -/

theorem getK?_outgoing_foldl (connections : List Connection) :
    ∀ (m : List (String × Nat)) (id : String),
      JsMap.getK? (connections.foldl (fun m conn =>
          JsMap.setK m conn.startNodeId
            ((JsMap.getK? m conn.startNodeId).getD 0 + 1)) m) id =
        if outDegree connections id = 0 then JsMap.getK? m id
        else some ((JsMap.getK? m id).getD 0 + outDegree connections id) := by
  induction connections with
  | nil =>
      intro m id
      simp [outDegree]
  | cons c rest ih =>
      intro m id
      simp only [List.foldl_cons]
      rw [ih]
      by_cases hs : c.startNodeId = id
      · have hdeg : outDegree (c :: rest) id = outDegree rest id + 1 := by
          simp [outDegree, hs]
        by_cases h0 : outDegree rest id = 0
        · simp [hdeg, JsMap.getK?_setK, hs, h0]
        · simp [hdeg, JsMap.getK?_setK, hs, h0]
          omega
      · have hdeg : outDegree (c :: rest) id = outDegree rest id := by
          simp [outDegree, hs]
        simp only [hdeg, JsMap.getK?_setK, if_neg hs]

theorem keys_setK {α : Type} (m : List (String × α)) (k : String) (v : α) :
    (JsMap.setK m k v).map Prod.fst =
      if k ∈ m.map Prod.fst then m.map Prod.fst else m.map Prod.fst ++ [k] := by
  induction m with
  | nil => simp [JsMap.setK]
  | cons p rest ih =>
      obtain ⟨pk, pv⟩ := p
      by_cases hpk : pk = k
      · subst hpk
        simp [JsMap.setK]
      · have hpk' : ¬k = pk := fun h => hpk h.symm
        by_cases hk : k ∈ rest.map Prod.fst <;>
          simp [JsMap.setK, hpk, hpk', ih, hk]

theorem nodupKeys_setK {α : Type} (m : List (String × α)) (k : String) (v : α)
    (h : (m.map Prod.fst).Nodup) : ((JsMap.setK m k v).map Prod.fst).Nodup := by
  rw [keys_setK]
  by_cases hk : k ∈ m.map Prod.fst
  · simpa [hk]
  · simp [hk, List.nodup_append, h]

theorem nodupKeys_buildOutgoingCount (connections : List Connection) :
    ((buildOutgoingCount connections).map Prod.fst).Nodup := by
  unfold buildOutgoingCount
  suffices h : ∀ m : List (String × Nat), (m.map Prod.fst).Nodup →
      ((connections.foldl (fun m conn =>
        JsMap.setK m conn.startNodeId
          ((JsMap.getK? m conn.startNodeId).getD 0 + 1)) m).map Prod.fst).Nodup by
    exact h [] (by simp)
  induction connections with
  | nil => intro m hm; exact hm
  | cons c rest ih =>
      intro m hm
      simp only [List.foldl_cons]
      exact ih _ (nodupKeys_setK _ _ _ hm)

theorem getK?_eq_some_of_mem {α : Type} :
    ∀ (m : List (String × α)), (m.map Prod.fst).Nodup →
      ∀ (k : String) (v : α), (k, v) ∈ m → JsMap.getK? m k = some v := by
  intro m
  induction m with
  | nil => intro _ k v hm; cases hm
  | cons p rest ih =>
      obtain ⟨pk, pv⟩ := p
      intro hnd k v hm
      rw [List.map_cons, List.nodup_cons] at hnd
      rcases List.mem_cons.mp hm with heq | hmem
      · cases heq
        simp [JsMap.getK?]
      · have hpk : pk ≠ k := by
          rintro rfl
          exact hnd.1 (List.mem_map.mpr ⟨(pk, v), hmem, rfl⟩)
        simp [JsMap.getK?, hpk, ih hnd.2 k v hmem]

theorem mem_of_getK?_eq_some {α : Type} :
    ∀ (m : List (String × α)) (k : String) (v : α),
      JsMap.getK? m k = some v → (k, v) ∈ m := by
  intro m
  induction m with
  | nil => intro k v h; cases h
  | cons p rest ih =>
      obtain ⟨pk, pv⟩ := p
      intro k v h
      by_cases hpk : pk = k
      · subst hpk
        simp [JsMap.getK?] at h
        subst h
        exact List.mem_cons_self _ _
      · simp only [JsMap.getK?, if_neg hpk] at h
        exact List.mem_cons_of_mem _ (ih k v h)

theorem getK?_buildOutgoingCount (connections : List Connection) (id : String) :
    JsMap.getK? (buildOutgoingCount connections) id =
      if outDegree connections id = 0 then none
      else some (outDegree connections id) := by
  unfold buildOutgoingCount
  rw [getK?_outgoing_foldl]
  by_cases h0 : outDegree connections id = 0 <;> simp [h0, JsMap.getK?]

/-- The `hasBranching` flag of `analyzeConnectionFlow` holds exactly when
some node has out-degree greater than 1. -/
theorem hasBranching_iff (connections : List Connection) :
    (((buildOutgoingCount connections).map Prod.snd).any
        fun count => decide (1 < count)) = true ↔
      ∃ id, 1 < outDegree connections id := by
  rw [List.any_eq_true]
  constructor
  · rintro ⟨v, hv, hlt⟩
    obtain ⟨⟨k, v'⟩, hmem, rfl⟩ := List.mem_map.mp hv
    have hk := getK?_eq_some_of_mem _
      (nodupKeys_buildOutgoingCount connections) k v' hmem
    rw [getK?_buildOutgoingCount] at hk
    by_cases h0 : outDegree connections k = 0
    · simp [h0] at hk
    · rw [if_neg h0, Option.some.injEq] at hk
      exact ⟨k, by simp at hlt; omega⟩
  · rintro ⟨id, hid⟩
    have hk : JsMap.getK? (buildOutgoingCount connections) id =
        some (outDegree connections id) := by
      rw [getK?_buildOutgoingCount, if_neg (by omega)]
    exact ⟨outDegree connections id,
      List.mem_map.mpr ⟨(id, outDegree connections id),
        mem_of_getK?_eq_some _ _ _ hk, rfl⟩, by simpa using hid⟩

/-- A single root branching into three children, no further edges
(the concrete scenario from the spec's test battery). -/
def branchingExampleNodes : List CNode :=
  [⟨"r", "text", ⟨0, 0⟩, ⟨200, 150⟩⟩, ⟨"c1", "text", ⟨0, 200⟩, ⟨200, 150⟩⟩,
   ⟨"c2", "text", ⟨300, 200⟩, ⟨200, 150⟩⟩, ⟨"c3", "text", ⟨600, 200⟩, ⟨200, 150⟩⟩]

/-- The three root-to-child connections of `branchingExampleNodes`. -/
def branchingExampleConns : List Connection :=
  [⟨"1", "r", "c1"⟩, ⟨"2", "r", "c2"⟩, ⟨"3", "r", "c3"⟩]

/-- **C9.** `analyzeConnectionFlow` classifies: zero connections give style
"spatial"; otherwise, with `density = connectionCount / max (nodeCount - 1)
1`, the style is "network" exactly when the cycle detector
(`detectSimpleLoops`) fires or `density > 1`; failing that it is
"branching" exactly when `density > 0.5` or some node has out-degree
greater than 1; and "linear" otherwise — in particular a single root
branching into 3 children with no further edges is classified
"branching". -/
theorem c9_flow_classification :
    (∀ nodes : List CNode, analyzeConnectionFlow nodes [] =
      ⟨"spatial", "simple", false, false, none, none, none, none⟩)
    ∧ (∀ (nodes : List CNode) (connections : List Connection),
        connections ≠ [] →
        ((analyzeConnectionFlow nodes connections).style = "network" ↔
          detectSimpleLoops connections = true ∨
            1 < (connections.length : ℚ) / max ((nodes.length : ℚ) - 1) 1)
        ∧ ((analyzeConnectionFlow nodes connections).style ≠ "network" →
            ((analyzeConnectionFlow nodes connections).style = "branching" ↔
              1 / 2 < (connections.length : ℚ) / max ((nodes.length : ℚ) - 1) 1 ∨
                ∃ id, 1 < outDegree connections id))
        ∧ ((analyzeConnectionFlow nodes connections).style = "network" ∨
            (analyzeConnectionFlow nodes connections).style = "branching" ∨
            (analyzeConnectionFlow nodes connections).style = "linear"))
    ∧ (analyzeConnectionFlow branchingExampleNodes branchingExampleConns).style =
        "branching" := by
  refine ⟨fun nodes => by simp [analyzeConnectionFlow], ?_, ?_⟩
  · intro nodes connections hne
    have hlen : ¬(connections.length = 0) := by
      simpa [List.length_eq_zero] using hne
    have hbr := hasBranching_iff connections
    unfold analyzeConnectionFlow
    rw [if_neg hlen]
    simp only []
    cases hL : detectSimpleLoops connections <;>
      by_cases hd1 : 1 < (connections.length : ℚ) / max ((nodes.length : ℚ) - 1) 1 <;>
      by_cases hd2 : 1 / 2 <
        (connections.length : ℚ) / max ((nodes.length : ℚ) - 1) 1 <;>
      cases hB : ((buildOutgoingCount connections).map Prod.snd).any
          fun count => decide (1 < count) <;>
      rw [hB] at hbr <;>
      simp_all [-not_lt]
  · simp [analyzeConnectionFlow, branchingExampleNodes, branchingExampleConns,
      detectSimpleLoops, hasCycle, buildOutgoingCount, JsMap.setK, JsMap.getK?,
      JsMap.hasK, jsInsert]
    norm_num

theorem c9_flow_classification_witness :
    (analyzeConnectionFlow branchingExampleNodes [] =
      ⟨"spatial", "simple", false, false, none, none, none, none⟩) ∧
      branchingExampleConns ≠ [] ∧
      ((analyzeConnectionFlow branchingExampleNodes branchingExampleConns).style ≠
          "network" →
        ((analyzeConnectionFlow branchingExampleNodes branchingExampleConns).style =
            "branching" ↔
          1 / 2 < (branchingExampleConns.length : ℚ) /
              max ((branchingExampleNodes.length : ℚ) - 1) 1 ∨
            ∃ id, 1 < outDegree branchingExampleConns id)) :=
  ⟨(c9_flow_classification.1 branchingExampleNodes), by decide,
    ((c9_flow_classification.2.1 branchingExampleNodes branchingExampleConns
      (by decide)).2.1)⟩

/-! ## Presentation engine registry (`PresentationEngine`, src/unnamed/part_011)

`registerEngine` populates `this.engines : Map<engineType, EngineClass>`;
`getRecommendedEngine` scores every registered engine and keeps the first
strict improvement over a best-score accumulator initialised to
`(engines[0], 0)`.  An engine is modelled by its registry key together
with the static capabilities `getCapabilities()` returns. -/

/-- The capability fields consulted by `validateNodes` and the scoring loop
(`features.overview/fragments/customCSS/nodeTypes`); themes, transitions,
export formats, plugins and CDN requirements are never read there. -/
structure EngineFeatures where
  overview : Bool
  fragments : Bool
  customCSS : Bool
  nodeTypes : List String
deriving DecidableEq, Repr

/-- An engine's static capabilities (`EngineClass.getCapabilities()`). -/
structure EngineCapabilities where
  name : String
  features : EngineFeatures
deriving DecidableEq, Repr

/-- `RevealEngine.getCapabilities()` (src/js/engines/reveal-engine.js). -/
def revealCapabilities : EngineCapabilities :=
  { name := "Reveal.js"
    features := { overview := true, fragments := true, customCSS := true
                  nodeTypes := ["text", "image", "code"] } }

/-- `ImpressEngine.getCapabilities()` (src/js/engines/impress-engine.js). -/
def impressCapabilities : EngineCapabilities :=
  { name := "Impress.js"
    features := { overview := true, fragments := false, customCSS := true
                  nodeTypes := ["text", "image", "code"] } }

/-- The registry built by `initializeEngines`: reveal first, impress
second. -/
def defaultEngines : List (String × EngineCapabilities) :=
  [("reveal", revealCapabilities), ("impress", impressCapabilities)]

/-- Result of `BaseEngine.validateNodes`; each issue record is represented
by the offending node's id. -/
structure Validation where
  isValid : Bool
  issues : List String
deriving DecidableEq, Repr

/-- `BaseEngine.validateNodes` (used through `validateNodesForEngine`):
one `unsupported_type` issue per node whose type the engine does not
support. -/
def validateNodes (caps : EngineCapabilities) (nodes : List CNode) : Validation :=
  let issues := (nodes.filter fun node =>
    !(caps.features.nodeTypes.contains node.type)).map (·.id)
  { isValid := issues.isEmpty, issues := issues }

/-- `[...new Set(l)]`: first occurrences, in insertion order. -/
def jsSetList (l : List String) : List String := l.foldl jsInsert []

/-- The `+10` / `-issues.length` validity part of the score. -/
def baseScore (caps : EngineCapabilities) (nodes : List CNode) : ℤ :=
  if (validateNodes caps nodes).isValid then 10
  else -((validateNodes caps nodes).issues.length : ℤ)

/-- The advanced-feature bonus (`overview` +2, `fragments` +1,
`customCSS` +1). -/
def featureBonus (caps : EngineCapabilities) : ℤ :=
  (if caps.features.overview then 2 else 0) +
    (if caps.features.fragments then 1 else 0) +
    (if caps.features.customCSS then 1 else 0)

/-- The node-type intersection count: distinct node types present that the
engine supports. -/
def typeSupport (caps : EngineCapabilities) (nodes : List CNode) : ℤ :=
  (((jsSetList (nodes.map (·.type))).filter fun t =>
    caps.features.nodeTypes.contains t).length : ℤ)

/-- The connection-aware bonus: +5 for the engine registered as "impress"
on a branching/network flow, +3 for the engine registered as "reveal" on a
linear flow; nothing when there are no connections. -/
def connectionBonus (engineType : String) (nodes : List CNode)
    (connections : List Connection) : ℤ :=
  if 0 < connections.length then
    (if engineType == "impress" &&
        ((analyzeConnectionFlow nodes connections).style == "branching" ||
          (analyzeConnectionFlow nodes connections).style == "network")
      then 5 else 0) +
    (if engineType == "reveal" &&
        (analyzeConnectionFlow nodes connections).style == "linear"
      then 3 else 0)
  else 0

/-- The per-engine score accumulated by `getRecommendedEngine`'s loop. -/
def engineScore (engineType : String) (caps : EngineCapabilities)
    (nodes : List CNode) (connections : List Connection) : ℤ :=
  baseScore caps nodes + featureBonus caps + typeSupport caps nodes +
    connectionBonus engineType nodes connections

/-- The object `getRecommendedEngine` returns. -/
structure Recommendation where
  engine : String
  score : ℤ
  alternatives : List String
  reason : String
deriving DecidableEq, Repr

/-- `PresentationEngine.getRecommendedEngine`: fold the registered engines,
replacing the best candidate only on a strictly greater score, starting
from `(engines[0], 0)` (an empty registry leaves JS `undefined`, modelled
as `""`). -/
def getRecommendedEngine (registry : List (String × EngineCapabilities))
    (nodes : List CNode) (connections : List Connection) : Recommendation :=
  let engines := registry.map Prod.fst
  let best := registry.foldl
    (fun best e =>
      let score := engineScore e.1 e.2 nodes connections
      if best.2 < score then (e.1, score) else best)
    ((engines.head?).getD "", 0)
  { engine := best.1
    score := best.2
    alternatives := engines.filter fun e => e ≠ best.1
    reason := if 0 < connections.length then "connection-aware" else "node-based" }

/-! ## Claim C1: engine recommendation -/

theorem foldl_best_stay (nodes : List CNode) (conns : List Connection) :
    ∀ (l : List (String × EngineCapabilities)) (best : String × ℤ),
      (∀ e ∈ l, engineScore e.1 e.2 nodes conns ≤ best.2) →
      l.foldl (fun best e =>
        let score := engineScore e.1 e.2 nodes conns
        if best.2 < score then (e.1, score) else best) best = best := by
  intro l
  induction l with
  | nil => intro best _; rfl
  | cons e t ih =>
      intro best hle
      simp only [List.foldl_cons]
      rw [show (let score := engineScore e.1 e.2 nodes conns
          if best.2 < score then (e.1, score) else best) = best by
        simp only [if_neg (not_lt.mpr (hle e (List.mem_cons_self e t)))]]
      exact ih best fun d hd => hle d (List.mem_cons_of_mem _ hd)

theorem foldl_best_max (nodes : List CNode) (conns : List Connection) :
    ∀ (l : List (String × EngineCapabilities)) (best : String × ℤ) (M : ℤ)
      (e₀ : String × EngineCapabilities),
      (l.map fun e => engineScore e.1 e.2 nodes conns).maximum = (M : WithBot ℤ) →
      best.2 < M →
      l.find? (fun e => engineScore e.1 e.2 nodes conns == M) = some e₀ →
      l.foldl (fun best e =>
        let score := engineScore e.1 e.2 nodes conns
        if best.2 < score then (e.1, score) else best) best = (e₀.1, M) := by
  intro l
  induction l with
  | nil =>
      intro best M e₀ hmax _ _
      simp at hmax
  | cons e t ih =>
      intro best M e₀ hmax hlt hfind
      have hmax' := List.maximum_eq_coe_iff.mp hmax
      by_cases he : engineScore e.1 e.2 nodes conns = M
      · rw [List.find?_cons_of_pos _ (by simp [he]), Option.some.injEq] at hfind
        subst hfind
        simp only [List.foldl_cons]
        rw [show (let score := engineScore e.1 e.2 nodes conns
            if best.2 < score then (e.1, score) else best) = (e.1, M) by
          simp only [he, if_pos hlt]]
        exact foldl_best_stay nodes conns t (e.1, M) fun d hd =>
          hmax'.2 _ (List.mem_map.mpr ⟨d, List.mem_cons_of_mem _ hd, rfl⟩)
      · rw [List.find?_cons_of_neg _ (by simp [he])] at hfind
        have hmem : M ∈ t.map fun e => engineScore e.1 e.2 nodes conns := by
          have h1 := hmax'.1
          rw [List.map_cons] at h1
          rcases List.mem_cons.mp h1 with h | h
          · exact absurd h.symm he
          · exact h
        have hmaxt : (t.map fun e => engineScore e.1 e.2 nodes conns).maximum =
            (M : WithBot ℤ) :=
          List.maximum_eq_coe_iff.mpr ⟨hmem, fun a ha =>
            hmax'.2 a (by rw [List.map_cons]; exact List.mem_cons_of_mem _ ha)⟩
        simp only [List.foldl_cons]
        by_cases hb : best.2 < engineScore e.1 e.2 nodes conns
        · rw [show (let score := engineScore e.1 e.2 nodes conns
              if best.2 < score then (e.1, score) else best) =
              (e.1, engineScore e.1 e.2 nodes conns) by
            simp only [if_pos hb]]
          refine ih _ M e₀ hmaxt ?_ hfind
          exact lt_of_le_of_ne
            (hmax'.2 _ (List.mem_map.mpr ⟨e, List.mem_cons_self _ _, rfl⟩)) he
        · rw [show (let score := engineScore e.1 e.2 nodes conns
              if best.2 < score then (e.1, score) else best) = best by
            simp only [if_neg hb]]
          exact ih best M e₀ hmaxt hlt hfind

theorem getRecommendedEngine_max (registry : List (String × EngineCapabilities))
    (nodes : List CNode) (conns : List Connection) (M : ℤ)
    (e₀ : String × EngineCapabilities)
    (hmax : (registry.map fun e => engineScore e.1 e.2 nodes conns).maximum =
      (M : WithBot ℤ))
    (hM : 0 < M)
    (hfind : registry.find? (fun e => engineScore e.1 e.2 nodes conns == M) =
      some e₀) :
    (getRecommendedEngine registry nodes conns).engine = e₀.1 ∧
      (getRecommendedEngine registry nodes conns).score = M := by
  have hfold := foldl_best_max nodes conns registry
    (((registry.map Prod.fst).head?).getD "", 0) M e₀ hmax hM hfind
  unfold getRecommendedEngine
  simp only [hfold]
  exact ⟨trivial, trivial⟩

theorem getRecommendedEngine_nonpos (registry : List (String × EngineCapabilities))
    (nodes : List CNode) (conns : List Connection) (hne : registry ≠ [])
    (hall : ∀ e ∈ registry, engineScore e.1 e.2 nodes conns ≤ 0) :
    (getRecommendedEngine registry nodes conns).engine = (registry.head hne).1 ∧
      (getRecommendedEngine registry nodes conns).score = 0 := by
  have hfold := foldl_best_stay nodes conns registry
    (((registry.map Prod.fst).head?).getD "", 0) (by simpa using hall)
  unfold getRecommendedEngine
  simp only [hfold]
  cases registry with
  | nil => exact absurd rfl hne
  | cons r t => exact ⟨by simp, trivial⟩

theorem mem_jsSetList (l : List String) :
    ∀ (acc : List String) (x : String), x ∈ l.foldl jsInsert acc →
      x ∈ acc ∨ x ∈ l := by
  induction l with
  | nil => intro acc x h; exact Or.inl h
  | cons a t ih =>
      intro acc x h
      simp only [List.foldl_cons] at h
      rcases ih _ x h with h' | h'
      · unfold jsInsert at h'
        by_cases ha : a ∈ acc
        · rw [if_pos ha] at h'
          exact Or.inl h'
        · rw [if_neg ha] at h'
          rcases List.mem_append.mp h' with h'' | h''
          · exact Or.inl h''
          · simp at h''
            simp [h'']
      · simp [h']

theorem fullSupport_score_lt (nF nP : String) (capsF capsP : EngineCapabilities)
    (nodes : List CNode)
    (hov : capsF.features.overview = capsP.features.overview)
    (hfr : capsF.features.fragments = capsP.features.fragments)
    (hcss : capsF.features.customCSS = capsP.features.customCSS)
    (hfull : ∀ n ∈ nodes, capsF.features.nodeTypes.contains n.type = true)
    (hmiss : ∃ n ∈ nodes, capsP.features.nodeTypes.contains n.type = false) :
    engineScore nP capsP nodes [] < engineScore nF capsF nodes [] ∧
      10 ≤ engineScore nF capsF nodes [] := by
  have hcb : ∀ t : String, connectionBonus t nodes [] = 0 := fun t => by
    simp [connectionBonus]
  have hfb : featureBonus capsF = featureBonus capsP := by
    unfold featureBonus
    rw [hov, hfr, hcss]
  have hfb0 : 0 ≤ featureBonus capsP := by
    unfold featureBonus
    have h1 : (0:ℤ) ≤ if capsP.features.overview then 2 else 0 := by
      split <;> norm_num
    have h2 : (0:ℤ) ≤ if capsP.features.fragments then 1 else 0 := by
      split <;> norm_num
    have h3 : (0:ℤ) ≤ if capsP.features.customCSS then 1 else 0 := by
      split <;> norm_num
    linarith
  have hbaseF : baseScore capsF nodes = 10 := by
    unfold baseScore validateNodes
    simp only []
    rw [show nodes.filter (fun node =>
        !(capsF.features.nodeTypes.contains node.type)) = [] from
      List.filter_eq_nil_iff.mpr (fun n hn => by rw [hfull n hn]; simp)]
    simp
  have hts0 : 0 ≤ typeSupport capsP nodes := by
    unfold typeSupport
    exact Int.natCast_nonneg _
  have hTF : typeSupport capsP nodes ≤ typeSupport capsF nodes := by
    unfold typeSupport
    rw [show (jsSetList (nodes.map (·.type))).filter
        (fun t => capsF.features.nodeTypes.contains t) =
        jsSetList (nodes.map (·.type)) from
      List.filter_eq_self.mpr (fun t ht => by
        rcases mem_jsSetList _ [] t ht with h | h
        · cases h
        · obtain ⟨n, hn, rfl⟩ := List.mem_map.mp h
          exact hfull n hn)]
    exact_mod_cast List.length_filter_le _ _
  have hbaseP : baseScore capsP nodes ≤ -1 := by
    obtain ⟨n, hn, hnp⟩ := hmiss
    have hmem : n ∈ nodes.filter fun node =>
        !(capsP.features.nodeTypes.contains node.type) :=
      List.mem_filter.mpr ⟨hn, by rw [hnp]; rfl⟩
    have hfil : nodes.filter (fun node =>
        !(capsP.features.nodeTypes.contains node.type)) ≠ [] :=
      List.ne_nil_of_mem hmem
    unfold baseScore validateNodes
    simp only []
    rw [if_neg (by simpa [List.isEmpty_iff, List.map_eq_nil_iff] using hfil)]
    have hlen : 0 < ((nodes.filter fun node =>
        !(capsP.features.nodeTypes.contains node.type)).map (·.id)).length := by
      rw [List.length_map]
      exact List.length_pos.mpr hfil
    omega
  constructor
  · unfold engineScore
    rw [hbaseF, hcb, hcb, hfb]
    linarith
  · unfold engineScore
    rw [hbaseF, hcb, hfb]
    linarith

/-- A node of the unsupported type "video" (no registered engine supports
it). -/
def mkVideoNode (id : String) : CNode := ⟨id, "video", ⟨0, 0⟩, ⟨200, 150⟩⟩

/-- Eight unsupported-type nodes: each engine collects eight
`unsupported_type` issues for them. -/
def cexNodes : List CNode :=
  [mkVideoNode "n1", mkVideoNode "n2", mkVideoNode "n3", mkVideoNode "n4",
   mkVideoNode "n5", mkVideoNode "n6", mkVideoNode "n7", mkVideoNode "n8"]

/-- Two connections out of `n1`, so the flow style is "branching" and only
the engine registered as "impress" receives the +5 connection bonus. -/
def cexConns : List Connection := [⟨"1", "n1", "n2"⟩, ⟨"2", "n1", "n3"⟩]

/-- **C1, counterexample.** On eight "video" nodes with a branching
connection pair, impress scores 0 and reveal scores −4, yet
`getRecommendedEngine` returns reveal with reported score 0: the best-score
accumulator starts at `(engines[0], 0)` and is only replaced by a *strictly
positive* improvement over 0, so the engine with the (negative or zero)
highest score is not returned, contradicting the claim that the
highest-scoring engine always wins. -/
theorem c1_counterexample :
    engineScore "impress" impressCapabilities cexNodes cexConns = 0 ∧
      engineScore "reveal" revealCapabilities cexNodes cexConns = -4 ∧
      (getRecommendedEngine defaultEngines cexNodes cexConns).engine = "reveal" ∧
      (getRecommendedEngine defaultEngines cexNodes cexConns).score = 0 := by
  have hstyle : (analyzeConnectionFlow cexNodes cexConns).style = "branching" := by
    simp [analyzeConnectionFlow, cexNodes, cexConns, mkVideoNode, detectSimpleLoops,
      hasCycle, buildOutgoingCount, JsMap.setK, JsMap.getK?, JsMap.hasK, jsInsert]
    norm_num
  simp only [cexNodes, cexConns, mkVideoNode] at hstyle
  refine ⟨?_, ?_, ?_, ?_⟩ <;>
    simp [engineScore, getRecommendedEngine, baseScore, featureBonus, typeSupport,
      connectionBonus, validateNodes, jsSetList, jsInsert, defaultEngines,
      revealCapabilities, impressCapabilities, cexNodes, cexConns, mkVideoNode,
      hstyle]

/-- **C1, amended.** `getRecommendedEngine` returns the first-registered
engine attaining the highest score *provided that highest score is
positive* (ties still favour the earlier-registered engine); when no
engine scores above 0 it falls back to the first-registered engine with
reported score 0 (the accumulator's initial value), rather than the
highest-scoring engine.  The full-support comparison survives unchanged:
for two engines whose advanced-feature flags agree, on a node set (without
connections) fully supported by one engine and not fully supported by the
other, the fully-supporting engine scores strictly higher and is returned
from either registration order. -/
theorem c1_recommendation_amended :
    (∀ (registry : List (String × EngineCapabilities)) (nodes : List CNode)
      (conns : List Connection) (M : ℤ) (e₀ : String × EngineCapabilities),
      (registry.map fun e => engineScore e.1 e.2 nodes conns).maximum =
          (M : WithBot ℤ) →
      0 < M →
      registry.find? (fun e => engineScore e.1 e.2 nodes conns == M) = some e₀ →
      (getRecommendedEngine registry nodes conns).engine = e₀.1 ∧
        (getRecommendedEngine registry nodes conns).score = M)
    ∧ (∀ (registry : List (String × EngineCapabilities)) (nodes : List CNode)
        (conns : List Connection) (hne : registry ≠ []),
        (∀ e ∈ registry, engineScore e.1 e.2 nodes conns ≤ 0) →
        (getRecommendedEngine registry nodes conns).engine =
            (registry.head hne).1 ∧
          (getRecommendedEngine registry nodes conns).score = 0)
    ∧ (∀ (nF nP : String) (capsF capsP : EngineCapabilities)
        (nodes : List CNode),
        capsF.features.overview = capsP.features.overview →
        capsF.features.fragments = capsP.features.fragments →
        capsF.features.customCSS = capsP.features.customCSS →
        (∀ n ∈ nodes, capsF.features.nodeTypes.contains n.type = true) →
        (∃ n ∈ nodes, capsP.features.nodeTypes.contains n.type = false) →
        engineScore nP capsP nodes [] < engineScore nF capsF nodes [] ∧
          (getRecommendedEngine [(nF, capsF), (nP, capsP)] nodes []).engine = nF ∧
          (getRecommendedEngine [(nP, capsP), (nF, capsF)] nodes []).engine = nF) := by
  refine ⟨fun registry nodes conns M e₀ hmax hM hfind =>
      getRecommendedEngine_max registry nodes conns M e₀ hmax hM hfind,
    fun registry nodes conns hne hall =>
      getRecommendedEngine_nonpos registry nodes conns hne hall, ?_⟩
  intro nF nP capsF capsP nodes hov hfr hcss hfull hmiss
  obtain ⟨hlt, hSF⟩ :=
    fullSupport_score_lt nF nP capsF capsP nodes hov hfr hcss hfull hmiss
  refine ⟨hlt, ?_, ?_⟩
  · exact (getRecommendedEngine_max [(nF, capsF), (nP, capsP)] nodes []
      (engineScore nF capsF nodes []) (nF, capsF)
      (by
        apply List.maximum_eq_coe_iff.mpr
        simp only [List.map_cons, List.map_nil]
        exact ⟨by simp, by
          intro a ha
          simp only [List.mem_cons, List.not_mem_nil, or_false] at ha
          rcases ha with rfl | rfl
          · exact le_refl _
          · exact hlt.le⟩)
      (by linarith)
      (List.find?_cons_of_pos _ (by simp))).1
  · exact (getRecommendedEngine_max [(nP, capsP), (nF, capsF)] nodes []
      (engineScore nF capsF nodes []) (nF, capsF)
      (by
        apply List.maximum_eq_coe_iff.mpr
        simp only [List.map_cons, List.map_nil]
        exact ⟨by simp, by
          intro a ha
          simp only [List.mem_cons, List.not_mem_nil, or_false] at ha
          rcases ha with rfl | rfl
          · exact hlt.le
          · exact le_refl _⟩)
      (by linarith)
      (by
        rw [List.find?_cons_of_neg _ (by simp [ne_of_lt hlt]),
          List.find?_cons_of_pos _ (by simp)])).1

theorem c1_recommendation_amended_witness :
    ((getRecommendedEngine defaultEngines
        [⟨"t1", "text", ⟨0, 0⟩, ⟨200, 150⟩⟩] []).engine = "reveal" ∧
      (getRecommendedEngine defaultEngines
        [⟨"t1", "text", ⟨0, 0⟩, ⟨200, 150⟩⟩] []).score = 15)
    ∧ ((getRecommendedEngine defaultEngines cexNodes []).engine = "reveal" ∧
      (getRecommendedEngine defaultEngines cexNodes []).score = 0)
    ∧ (engineScore "mock-partial" ⟨"Mock Partial", ⟨false, false, false, []⟩⟩
          [⟨"t1", "text", ⟨0, 0⟩, ⟨200, 150⟩⟩] [] <
        engineScore "mock-full" ⟨"Mock Full", ⟨false, false, false, ["text"]⟩⟩
          [⟨"t1", "text", ⟨0, 0⟩, ⟨200, 150⟩⟩] [] ∧
      (getRecommendedEngine
          [("mock-full", ⟨"Mock Full", ⟨false, false, false, ["text"]⟩⟩),
            ("mock-partial", ⟨"Mock Partial", ⟨false, false, false, []⟩⟩)]
          [⟨"t1", "text", ⟨0, 0⟩, ⟨200, 150⟩⟩] []).engine = "mock-full" ∧
      (getRecommendedEngine
          [("mock-partial", ⟨"Mock Partial", ⟨false, false, false, []⟩⟩),
            ("mock-full", ⟨"Mock Full", ⟨false, false, false, ["text"]⟩⟩)]
          [⟨"t1", "text", ⟨0, 0⟩, ⟨200, 150⟩⟩] []).engine = "mock-full") :=
  ⟨c1_recommendation_amended.1 defaultEngines
      [⟨"t1", "text", ⟨0, 0⟩, ⟨200, 150⟩⟩] [] 15 ("reveal", revealCapabilities)
      (by decide) (by decide) (by decide),
    c1_recommendation_amended.2.1 defaultEngines cexNodes [] (by decide)
      (by decide),
    c1_recommendation_amended.2.2 "mock-full" "mock-partial"
      ⟨"Mock Full", ⟨false, false, false, ["text"]⟩⟩
      ⟨"Mock Partial", ⟨false, false, false, []⟩⟩
      [⟨"t1", "text", ⟨0, 0⟩, ⟨200, 150⟩⟩] rfl rfl rfl (by decide) (by decide)⟩
